import Mathlib

/-!
Verification of the Lamborghini Wikipedia chatbot (`a10.py`).

The script scrapes the "List of Lamborghini automobiles" page into a mapping
from lowercased model name to an attribute record, then answers free-text
queries by matching them against an ordered list of token templates.

The embedding below models Python strings as Lean `String`s, with the Python
string methods used by the script (`lower`, `strip`, `split`, `title`,
`join`, `re.split`) given explicit character-level definitions.  `lower` and
`title` are modelled at ASCII precision (Lean's `Char.toLower` only maps the
basic latin letters), which is exact on every string the theorems evaluate.
Python exceptions are modelled with `Except`: a raised exception is an
`Except.error` carrying the exception's message.
-/

namespace A10

/-- Model of Python `str.lower`: lowercase every character. -/
def pyLower (s : String) : String := ⟨s.data.map Char.toLower⟩

/-- Characters stripped by Python `str.strip()` (whitespace at both ends). -/
def stripChars (cs : List Char) : List Char :=
  ((cs.dropWhile Char.isWhitespace).reverse.dropWhile Char.isWhitespace).reverse

/-- Model of Python `str.strip()`. -/
def pyStrip (s : String) : String := ⟨stripChars s.data⟩

/-- Split a character list at every separator character, keeping empty pieces.
Returns the first piece and the remaining pieces. -/
def chunksAux (p : Char → Bool) : List Char → List Char × List (List Char)
  | [] => ([], [])
  | c :: cs =>
    let r := chunksAux p cs
    if p c then ([], r.1 :: r.2) else (c :: r.1, r.2)

/-- All pieces of a character list split at separator characters,
empty pieces included (the behaviour of Python `re.split`). -/
def chunks (p : Char → Bool) (cs : List Char) : List (List Char) :=
  (chunksAux p cs).1 :: (chunksAux p cs).2

/-- Model of Python `str.split()` with no argument: split on whitespace runs
and drop empty pieces. -/
def pySplitWs (cs : List Char) : List (List Char) :=
  (chunks Char.isWhitespace cs).filter (· ≠ [])

/-- Model of Python `re.split(r",|/", s)`: split at every comma or slash. -/
def pySplitCommaSlash (s : String) : List String :=
  (chunks (fun c => c = ',' || c = '/') s.data).map (fun l => ⟨l⟩)

/-- Model of Python `" ".join(ws)`. -/
def joinWords (ws : List String) : String := String.intercalate " " ws

/-- Helper for `pyTitle`: the Boolean records whether the previous character
was alphabetic. -/
def titleAux : Bool → List Char → List Char
  | _, [] => []
  | prev, c :: cs =>
    if c.isAlpha then (if prev then c.toLower else c.toUpper) :: titleAux true cs
    else c :: titleAux false cs

/-- Model of Python `str.title()` (ASCII precision): uppercase each character
that starts an alphabetic run, lowercase the rest of the run. -/
def pyTitle (s : String) : String := ⟨titleAux false s.data⟩

/-! ## Scraper (`parse_lambo_tables`, lines 44-82) -/

/-- One attribute record of the scraped mapping (the dict built at
lines 76-81 of `a10.py`). -/
structure ModelRecord where
  model : String
  duration : String
  engine : String
  top_speed : String
deriving DecidableEq, Repr

/-- The scraped mapping.  Python dict modelled as an association list where
the most recent write is at the head. -/
abbrev ModelInfo := List (String × ModelRecord)

/-- Python `dict` lookup: the most recent binding of the key. -/
def lookupInfo : ModelInfo → String → Option ModelRecord
  | [], _ => none
  | (k, v) :: rest, key => if k = key then some v else lookupInfo rest key

/-- One table cell as BeautifulSoup delivers it: its tag (`th` or `td`) and
its extracted text (`get_text(separator=" ", strip=True)`). -/
structure Cell where
  isTh : Bool
  text : String
deriving DecidableEq, Repr

/-- A `wikitable` as a list of rows, each row the list of its cells. -/
abbrev Table := List (List Cell)

/-- Model of Python `list.index` inside `try`: the index of the first
occurrence, or `none` where Python raises `ValueError`. -/
def listIndex (a : String) : List String → Option Nat
  | [] => none
  | x :: xs => if x = a then some 0 else (listIndex a xs).map (· + 1)

/-- Model of Python `cols[i]`: the cell text at index `i`, or an
`IndexError` when out of range. -/
def cellText (cols : List Cell) (i : Nat) : Except String String :=
  match cols.get? i with
  | some c => Except.ok c.text
  | none => Except.error "IndexError: list index out of range"

/-- The headers of a table's first row: the lowercased text of its `th`
cells (line 51 of `a10.py`). -/
def headersOf (row0 : List Cell) : List String :=
  (row0.filter (·.isTh)).map (fun c => pyLower c.text)

/-- The body of the row loop (lines 62-81): skip short rows, read the four
cells, split the model cell on commas and slashes, and register each
variant under its lowercased key. -/
def rowStep (mi di ei ti : Nat) (acc : ModelInfo) (cols : List Cell) :
    Except String ModelInfo :=
  if cols.length < max (max (max mi di) ei) ti + 1 then Except.ok acc
  else
    match cellText cols mi with
    | Except.error e => Except.error e
    | Except.ok model_raw =>
      match cellText cols di with
      | Except.error e => Except.error e
      | Except.ok duration =>
        match cellText cols ei with
        | Except.error e => Except.error e
        | Except.ok engine =>
          match cellText cols ti with
          | Except.error e => Except.error e
          | Except.ok top_speed =>
            let models := (pySplitCommaSlash model_raw).map pyStrip
            Except.ok (models.foldl
              (fun a m =>
                (pyLower m, ⟨m, duration, engine, top_speed⟩) :: a)
              acc)

/-- The body of the table loop (lines 49-81): `rows[0]` raises `IndexError`
on a rowless table; a table whose headers lack one of the four required
names is skipped (`except ValueError: continue`); otherwise every data row
is processed. -/
def tableStep (acc : ModelInfo) (t : Table) : Except String ModelInfo :=
  match t with
  | [] => Except.error "IndexError: list index out of range"
  | row0 :: rest =>
    let headers := headersOf row0
    match listIndex "model" headers, listIndex "duration of production" headers,
        listIndex "engine" headers, listIndex "top speed" headers with
    | some mi, some di, some ei, some ti =>
      rest.foldlM (rowStep mi di ei ti) acc
    | _, _, _, _ => Except.ok acc

/-- Model of `parse_lambo_tables` (lines 44-82): fold the table loop over
all `wikitable`s, starting from the empty dict. -/
def parse_lambo_tables (tables : List Table) : Except String ModelInfo :=
  tables.foldlM tableStep []

/-! ## Attribute lookup (lines 96-115) -/

/-- Model of `get_duration`: lowercase the argument, return the record's
duration, or raise `AttributeError` with the message of line 101. -/
def get_duration (info : ModelInfo) (model_name : String) : Except String String :=
  let key := pyLower model_name
  match lookupInfo info key with
  | some r => Except.ok r.duration
  | none =>
    Except.error ("No production duration info for model '" ++ model_name ++ "'")

/-- Model of `get_engine` (lines 103-108). -/
def get_engine (info : ModelInfo) (model_name : String) : Except String String :=
  let key := pyLower model_name
  match lookupInfo info key with
  | some r => Except.ok r.engine
  | none => Except.error ("No engine info for model '" ++ model_name ++ "'")

/-- Model of `get_top_speed` (lines 110-115). -/
def get_top_speed (info : ModelInfo) (model_name : String) : Except String String :=
  let key := pyLower model_name
  match lookupInfo info key with
  | some r => Except.ok r.top_speed
  | none => Except.error ("No top speed info for model '" ++ model_name ++ "'")

/-! ## The matching engine

Modelled from the spec: the file `match.py` (imported at line 5 of `a10.py`)
is not in the repository snapshot, so `match` is defined here from section
4.1 of the specification: literals match the exact same token, a wildcard
`"%"` binds a contiguous run of at least one query token (shortest first,
backtracking into longer runs when the rest of the template fails), the
whole query must be consumed, the empty template matches only the empty
query, and the result is one captured span per wildcard in template order
(spans delivered to handlers as space-joined strings, as the handlers'
`" ".join` usage expects), or `none` when there is no match. -/

/-- Modelled from the spec: the wildcard matcher of the missing `match.py`
(spec section 4.1), binding each `"%"` to at least one query token,
shortest run first, consuming the whole query. -/
def matchPat : List String → List String → Option (List String)
  | [], [] => some []
  | [], _ :: _ => none
  | _ :: _, [] => none
  | p :: ps, q :: qs =>
    if p = "%" then
      match matchPat ps qs with
      | some rest => some (q :: rest)
      | none =>
        match matchPat (p :: ps) qs with
        | some (cap :: rest) => some ((q ++ " " ++ cap) :: rest)
        | _ => none
    else if p = q then matchPat ps qs else none

/-! ## Action functions (lines 119-153) -/

/-- Model of `duration_action` (lines 119-125): the `try`/`except` catches
the `AttributeError` and returns its message. -/
def duration_action (info : ModelInfo) (ms : List String) : List String :=
  let model := joinWords ms
  match get_duration info model with
  | Except.ok duration =>
    ["The production duration of " ++ pyTitle model ++ " is: " ++ duration]
  | Except.error e => [e]

/-- Model of `engine_action` (lines 127-133). -/
def engine_action (info : ModelInfo) (ms : List String) : List String :=
  let model := joinWords ms
  match get_engine info model with
  | Except.ok engine =>
    ["The engine type of " ++ pyTitle model ++ " is: " ++ engine]
  | Except.error e => [e]

/-- Model of `top_speed_action` (lines 135-141). -/
def top_speed_action (info : ModelInfo) (ms : List String) : List String :=
  let model := joinWords ms
  match get_top_speed info model with
  | Except.ok top_speed =>
    ["The top speed of " ++ pyTitle model ++ " is: " ++ top_speed]
  | Except.error e => [e]

/-- Model of `model_help_action` (lines 143-150). -/
def model_help_action (info : ModelInfo) (ms : List String) : List String :=
  let model := joinWords ms
  let key := pyLower model
  match lookupInfo info key with
  | some _ =>
    ["Ask me about the production duration, engine type, or top speed of "
      ++ pyTitle model ++ "."]
  | none =>
    ["No information found for model '" ++ pyTitle model
      ++ "'. Try another Lamborghini model."]

/-! ## Rule table and dispatch (lines 160-195) -/

/-- The five action functions bound in `pa_list`, by name. -/
inductive ActionTag where
  | durationA
  | engineA
  | topSpeedA
  | modelHelpA
  | byeA
deriving DecidableEq, Repr

/-- What running one action yields: printed answer lines, or the
`KeyboardInterrupt` that `bye_action` raises (lines 152-153). -/
inductive ActResult where
  | out (lines : List String)
  | interrupt
deriving DecidableEq, Repr

/-- Run the action a tag names on the captured matches. -/
def runAction (tag : ActionTag) (info : ModelInfo) (ms : List String) :
    ActResult :=
  match tag with
  | ActionTag.durationA => ActResult.out (duration_action info ms)
  | ActionTag.engineA => ActResult.out (engine_action info ms)
  | ActionTag.topSpeedA => ActResult.out (top_speed_action info ms)
  | ActionTag.modelHelpA => ActResult.out (model_help_action info ms)
  | ActionTag.byeA => ActResult.interrupt

/-- The rule table `pa_list` (lines 160-186), each pattern written as the
token list its `.split()` produces, in source order. -/
def pa_list : List (List String × ActionTag) :=
  [ (["what", "is", "the", "production", "duration", "of", "%"], ActionTag.durationA),
    (["how", "long", "was", "%", "produced"], ActionTag.durationA),
    (["when", "was", "%", "produced"], ActionTag.durationA),
    (["production", "duration", "of", "%"], ActionTag.durationA),
    (["what", "is", "the", "engine", "type", "of", "%"], ActionTag.engineA),
    (["tell", "me", "the", "engine", "of", "%"], ActionTag.engineA),
    (["engine", "type", "of", "%"], ActionTag.engineA),
    (["engine", "of", "%"], ActionTag.engineA),
    (["what", "is", "the", "top", "speed", "of", "%"], ActionTag.topSpeedA),
    (["tell", "me", "the", "top", "speed", "of", "%"], ActionTag.topSpeedA),
    (["top", "speed", "of", "%"], ActionTag.topSpeedA),
    (["%"], ActionTag.modelHelpA),
    (["%", "production"], ActionTag.durationA),
    (["%", "engine"], ActionTag.engineA),
    (["%", "top", "speed"], ActionTag.topSpeedA),
    (["bye"], ActionTag.byeA) ]

/-- The fixed fallback response of line 195. -/
def fallbackMsg : String :=
  "I don't understand. Try asking about production duration, engine type, or top speed of a Lamborghini model."

/-- The loop body of `search_pa_list` (lines 191-194) over a remaining rule
list. -/
def searchGo (info : ModelInfo) (src : List String) :
    List (List String × ActionTag) → ActResult
  | [] => ActResult.out [fallbackMsg]
  | (pat, act) :: rest =>
    match matchPat pat src with
    | some m => runAction act info m
    | none => searchGo info src rest

/-- Model of `search_pa_list` (lines 190-195): try each rule in order, run
the first matching rule's action, else return the fallback. -/
def search_pa_list (info : ModelInfo) (src : List String) : ActResult :=
  searchGo info src pa_list

/-- The first rule of a rule list whose template matches the query, with
the captured spans: the specification's description of the dispatcher. -/
def firstMatch (rules : List (List String × ActionTag)) (src : List String) :
    Option (ActionTag × List String) :=
  match rules with
  | [] => none
  | (pat, act) :: rest =>
    match matchPat pat src with
    | some m => some (act, m)
    | none => firstMatch rest src

/-! ## The text normalizer (line 203)

`query = input("Your query? ").replace("?", "").lower().split()` -/

/-- Model of the normalizer of line 203, at character level: remove every
question mark, lowercase, split on whitespace. -/
def normalize_query (line : List Char) : List (List Char) :=
  pySplitWs ((line.filter (fun c => c ≠ '?')).map Char.toLower)

/-- The normalizer as the specification words it: lowercase and
whitespace-tokenize the line with at most one question mark stripped from
its end. -/
def spec_normalize (line : List Char) : List (List Char) :=
  let stripped := if line.getLast? = some '?' then line.dropLast else line
  pySplitWs (stripped.map Char.toLower)

/-! ## Startup fetch (`get_page_html`, lines 10-14) -/

/-- Model of `get_page_html`, parameterised by the external library calls
`wikipedia.search` and `WikipediaPage(...).html()`: raise `LookupError`
when the search has no results, else fetch the first result's page. -/
def get_page_html (search : String → List String) (htmlOf : String → String)
    (title : String) : Except String String :=
  match search title with
  | [] => Except.error ("No Wikipedia page found for " ++ title)
  | r :: _ => Except.ok (htmlOf r)

/-! ## Concrete test fixtures and small accessors used by the theorems -/

deriving instance DecidableEq for Except

/-- The success value of a call, `none` on a raised exception. -/
def exceptValue (e : Except String String) : Option String :=
  match e with
  | Except.ok v => some v
  | Except.error _ => none

/-- A header cell. -/
def thCell (s : String) : Cell := ⟨true, s⟩

/-- A data cell. -/
def tdCell (s : String) : Cell := ⟨false, s⟩

/-- The synthetic columns of the spec's round-trip test, as
(header text, data text) pairs. -/
def aventadorCols : List (String × String) :=
  [("Model", "Aventador"), ("Duration of production", "2011-2021"),
    ("Engine", "V12"), ("Top speed", "350 km/h")]

/-- A two-row `wikitable` built from (header, data) column pairs. -/
def tableOfCols (cols : List (String × String)) : Table :=
  [cols.map (fun p => thCell p.1), cols.map (fun p => tdCell p.2)]

/-- The spec's synthetic Aventador table. -/
def aventadorTable : Table := tableOfCols aventadorCols

/-- The record produced by the scrape at a key, `none` when the key is
absent or the scrape raised. -/
def parsedLookup (tables : List Table) (key : String) : Option ModelRecord :=
  match parse_lambo_tables tables with
  | Except.ok info => lookupInfo info key
  | Except.error _ => none

/-- All ways of inserting an element into a list. -/
def insertsEverywhere (a : α) : List α → List (List α)
  | [] => [[a]]
  | b :: bs => (a :: b :: bs) :: (insertsEverywhere a bs).map (b :: ·)

/-- All permutations of a list, by repeated insertion (structurally
recursive, so concrete instances evaluate by `decide`). -/
def permsOf : List α → List (List α)
  | [] => [[]]
  | a :: as => (permsOf as).flatMap (insertsEverywhere a)

/-- The spec's synthetic variants table: one model cell listing two
variants separated by a slash. -/
def huracanTable : Table :=
  [ [thCell "Model", thCell "Duration of production", thCell "Engine",
      thCell "Top speed"],
    [tdCell "Huracán / Huracán EVO", tdCell "2014-present", tdCell "V10",
      tdCell "325 km/h"] ]

/-! ## Helper lemmas -/

/-- Packing a small code point and reading it back is the identity. -/
theorem toNat_ofNat_small (n : Nat) (h : n < 0xd800) :
    (Char.ofNat n).toNat = n := by
  rw [Char.ofNat, dif_pos (Or.inl h : n.isValidChar)]
  rfl

/-- Case analysis on `Char.toLower`: an upper-case latin letter moves up by
32 code points, anything else is unchanged. -/
theorem toLower_cases (c : Char) :
    (65 ≤ c.toNat ∧ c.toNat ≤ 90 ∧ (Char.toLower c).toNat = c.toNat + 32)
    ∨ (¬(65 ≤ c.toNat ∧ c.toNat ≤ 90) ∧ Char.toLower c = c) := by
  by_cases h : c.toNat ≥ 65 ∧ c.toNat ≤ 90
  · left
    refine ⟨h.1, h.2, ?_⟩
    show (if c.toNat ≥ 65 ∧ c.toNat ≤ 90 then Char.ofNat (c.toNat + 32)
      else c).toNat = c.toNat + 32
    rw [if_pos h]
    exact toNat_ofNat_small _ (by omega)
  · right
    refine ⟨h, ?_⟩
    show (if c.toNat ≥ 65 ∧ c.toNat ≤ 90 then Char.ofNat (c.toNat + 32)
      else c) = c
    rw [if_neg h]

/-- Lowercasing is idempotent. -/
theorem toLower_idem (c : Char) : c.toLower.toLower = c.toLower := by
  rcases toLower_cases c with ⟨_, _, h3⟩ | ⟨_, h2⟩
  · rcases toLower_cases c.toLower with ⟨h1', h2', _⟩ | ⟨_, h2'⟩
    · omega
    · exact h2'
  · rw [h2]
    exact h2

/-- Lowercasing yields a question mark only from a question mark. -/
theorem toLower_eq_qmark (c : Char) : Char.toLower c = '?' ↔ c = '?' := by
  constructor
  · intro h
    rcases toLower_cases c with ⟨h1, h2, h3⟩ | ⟨_, h2⟩
    · have : (Char.toLower c).toNat = 63 := by rw [h]; rfl
      omega
    · rw [h2] at h
      exact h
  · intro h
    rw [h]
    rfl

/-- A whitespace character is not a question mark. -/
theorem isWhitespace_ne_qmark (c : Char) (h : c.isWhitespace) : c ≠ '?' := by
  intro he
  rw [he] at h
  simp [Char.isWhitespace] at h

/-- `pyLower` is idempotent. -/
theorem pyLower_idem (s : String) : pyLower (pyLower s) = pyLower s := by
  show (⟨(⟨s.data.map Char.toLower⟩ : String).data.map Char.toLower⟩ : String)
    = ⟨s.data.map Char.toLower⟩
  show (⟨(s.data.map Char.toLower).map Char.toLower⟩ : String)
    = ⟨s.data.map Char.toLower⟩
  rw [List.map_map]
  exact congrArg String.mk (List.map_congr_left fun c _ => toLower_idem c)

/-- Folding an `Except`-valued step preserves a property held by the
accumulator and preserved by every successful step. -/
theorem foldlM_induct {α β : Type} (P : β → Prop) (step : β → α → Except String β)
    (hstep : ∀ a x b, P a → step a x = Except.ok b → P b) :
    ∀ (l : List α) (acc res : β), P acc →
      List.foldlM step acc l = Except.ok res → P res := by
  intro l
  induction l with
  | nil =>
    intro acc res h hf
    simp only [List.foldlM_nil, pure, Except.pure] at hf
    cases hf
    exact h
  | cons x xs ih =>
    intro acc res h hf
    rw [List.foldlM_cons] at hf
    cases hs : step acc x with
    | error e =>
      rw [hs] at hf
      simp only [bind, Except.bind] at hf
      cases hf
    | ok b =>
      rw [hs] at hf
      simp only [bind, Except.bind] at hf
      exact ih b res (hstep acc x b h hs) hf

/-- Folding an `Except`-valued step that never fails never fails. -/
theorem foldlM_total {α β : Type} (step : β → α → Except String β)
    (hstep : ∀ a x, ∃ b, step a x = Except.ok b) :
    ∀ (l : List α) (acc : β), ∃ res, List.foldlM step acc l = Except.ok res := by
  intro l
  induction l with
  | nil =>
    intro acc
    exact ⟨acc, rfl⟩
  | cons x xs ih =>
    intro acc
    obtain ⟨b, hb⟩ := hstep acc x
    obtain ⟨res, hres⟩ := ih b
    refine ⟨res, ?_⟩
    rw [List.foldlM_cons, hb]
    simpa only [bind, Except.bind] using hres

/-- Filtering by a predicate that keeps every separator commutes with
splitting into chunks. -/
theorem chunksAux_filter (q p : Char → Bool) (hqp : ∀ c, q c = true → p c = true) :
    ∀ cs : List Char, chunksAux q (cs.filter p)
      = ((chunksAux q cs).1.filter p, (chunksAux q cs).2.map (·.filter p)) := by
  intro cs
  induction cs with
  | nil => rfl
  | cons c cs ih =>
    simp only [List.filter_cons, chunksAux]
    by_cases hp : p c = true
    · by_cases hq : q c = true
      · simp [hp, hq, chunksAux, ih]
      · simp [hp, hq, chunksAux, ih]
    · have hq : ¬q c = true := fun h => hp (hqp c h)
      simp [hp, hq, ih]

/-- Chunk-level version of `chunksAux_filter`. -/
theorem chunks_filter (q p : Char → Bool) (hqp : ∀ c, q c = true → p c = true)
    (cs : List Char) :
    chunks q (cs.filter p) = (chunks q cs).map (·.filter p) := by
  unfold chunks
  rw [chunksAux_filter q p hqp]
  rfl

/-- Dropping empty pieces before or after a piece-wise filter gives the
same result, since the filter maps empty pieces to empty pieces. -/
theorem filter_ne_nil_map_filter (p : Char → Bool) (l : List (List Char)) :
    (l.map (·.filter p)).filter (· ≠ [])
      = ((l.filter (· ≠ [])).map (·.filter p)).filter (· ≠ []) := by
  induction l with
  | nil => rfl
  | cons w ws ih =>
    by_cases hw : w = []
    · subst hw
      simpa using ih
    · rw [List.map_cons]
      conv_rhs => rw [List.filter_cons_of_pos (by simpa using hw)]
      rw [List.map_cons]
      by_cases hpw : w.filter p = []
      · rw [List.filter_cons_of_neg (by simpa using hpw),
          List.filter_cons_of_neg (by simpa using hpw)]
        exact ih
      · rw [List.filter_cons_of_pos (by simpa using hpw),
          List.filter_cons_of_pos (by simpa using hpw)]
        rw [ih]

/-- Python `.split()` commutes with a filter that keeps whitespace, up to
dropping pieces the filter empties. -/
theorem pySplitWs_filter (p : Char → Bool)
    (hws : ∀ c, Char.isWhitespace c = true → p c = true) (cs : List Char) :
    pySplitWs (cs.filter p) = ((pySplitWs cs).map (·.filter p)).filter (· ≠ []) := by
  unfold pySplitWs
  rw [chunks_filter Char.isWhitespace p hws cs]
  exact filter_ne_nil_map_filter p (chunks Char.isWhitespace cs)

/-- Removing question marks commutes with lowercasing. -/
theorem map_toLower_filter_qmark (cs : List Char) :
    (cs.filter (fun c => c ≠ '?')).map Char.toLower
      = (cs.map Char.toLower).filter (fun c => c ≠ '?') := by
  rw [List.filter_map]
  congr 1
  apply List.filter_congr
  intro c _
  exact decide_eq_decide.mpr (not_congr (toLower_eq_qmark c).symm)

/-! ## Claim theorems -/

/-- C1: dispatching the query ["urus", "top", "speed"] through the rule table
fires `model_help_action`, not `top_speed_action`: the general template
(["%"], model_help_action) is listed at position 12 of `pa_list`, before the
more specific (["%", "top", "speed"], top_speed_action) at position 15, so
first-match-wins dispatch never reaches the top-speed rule, contrary to the
claim. -/
theorem claim1_urus_top_speed_fires_model_help :
    firstMatch pa_list ["urus", "top", "speed"]
        = some (ActionTag.modelHelpA, ["urus top speed"])
    ∧ search_pa_list [] ["urus", "top", "speed"]
        = ActResult.out
            ["No information found for model 'Urus Top Speed'. Try another Lamborghini model."] :=
  ⟨rfl, rfl⟩

/-- C2: dispatching the query ["bye"] does not reach `bye_action`: the
template (["%"], model_help_action), listed before (["bye"], bye_action),
matches first, so an answer line is printed and no `KeyboardInterrupt` is
raised — the loop does not terminate, contrary to the claim. -/
theorem claim2_bye_fires_model_help :
    firstMatch pa_list ["bye"] = some (ActionTag.modelHelpA, ["bye"])
    ∧ search_pa_list [] ["bye"]
        = ActResult.out
            ["No information found for model 'Bye'. Try another Lamborghini model."] :=
  ⟨rfl, rfl⟩

/-- C3: for every tokenized query, `search_pa_list` returns the result of
the action bound to the first template of `pa_list` that matches, applied
to the captured spans, and the fixed fallback response when no template
matches. -/
theorem claim3_search_pa_list_first_match (info : ModelInfo) (src : List String) :
    search_pa_list info src
      = match firstMatch pa_list src with
        | some (act, m) => runAction act info m
        | none => ActResult.out [fallbackMsg] := by
  show searchGo info src pa_list = _
  have h : ∀ rules, searchGo info src rules
      = match firstMatch rules src with
        | some (act, m) => runAction act info m
        | none => ActResult.out [fallbackMsg] := by
    intro rules
    induction rules with
    | nil => rfl
    | cons hd tl ih =>
      obtain ⟨pat, act⟩ := hd
      show (match matchPat pat src with
        | some m => runAction act info m
        | none => searchGo info src tl) = _
      cases hm : matchPat pat src with
      | some m =>
        show runAction act info m = _
        unfold firstMatch
        rw [hm]
      | none =>
        unfold firstMatch
        rw [hm]
        exact ih
  exact h pa_list

/-- C4, counterexample: the normalizer of line 203 removes every question
mark, not only a trailing one: on the raw line "a?b" the code produces the
token ["ab"] where the claim's description produces ["a?b"]. -/
theorem claim4_counterexample :
    normalize_query "a?b".data = [['a', 'b']]
    ∧ spec_normalize "a?b".data = [['a', '?', 'b']]
    ∧ normalize_query "a?b".data ≠ spec_normalize "a?b".data := by
  refine ⟨rfl, rfl, ?_⟩
  decide

/-- C4, amended: the normalizer lowercases the line, whitespace-tokenizes
it, and removes every question mark from every token (a token consisting
only of question marks disappears). -/
theorem claim4_normalizer_all_qmarks (line : List Char) :
    normalize_query line
      = ((pySplitWs (line.map Char.toLower)).map
            (fun w => w.filter (fun c => c ≠ '?'))).filter (· ≠ []) := by
  unfold normalize_query
  rw [map_toLower_filter_qmark]
  exact pySplitWs_filter (fun c => c ≠ '?')
    (fun c h => decide_eq_true (isWhitespace_ne_qmark c h)) (line.map Char.toLower)

/-- Inserting an element at any split point yields a member of
`insertsEverywhere`. -/
theorem mem_insertsEverywhere (a : α) :
    ∀ pre suf : List α, pre ++ a :: suf ∈ insertsEverywhere a (pre ++ suf) := by
  intro pre
  induction pre with
  | nil =>
    intro suf
    cases suf with
    | nil => exact List.mem_singleton.mpr rfl
    | cons b bs => exact List.mem_cons_self _ _
  | cons b pre ih =>
    intro suf
    exact List.mem_cons_of_mem _ (List.mem_map_of_mem _ (ih suf))

/-- Every permutation of a list is enumerated by `permsOf`. -/
theorem perm_mem_permsOf : ∀ {l' l : List α}, l.Perm l' → l ∈ permsOf l' := by
  intro l'
  induction l' with
  | nil =>
    intro l h
    rw [h.eq_nil]
    exact List.mem_singleton.mpr rfl
  | cons a as ih =>
    intro l h
    have ha : a ∈ l := h.symm.subset (List.mem_cons_self a as)
    obtain ⟨s, t, rfl⟩ := List.append_of_mem ha
    have hst : (s ++ t).Perm as := by
      have hmid : (s ++ a :: t).Perm (a :: (s ++ t)) := List.perm_middle
      exact ((hmid.symm.trans h).cons_inv)
    exact List.mem_flatMap.mpr ⟨s ++ t, ih hst, mem_insertsEverywhere a s t⟩

/-- C5: an attribute query naming an unknown model makes each of the three
attribute actions return the one-element not-found message; the
`AttributeError` is caught inside the action and never propagates. -/
theorem claim5_unknown_model_message (info : ModelInfo) (ms : List String)
    (h : lookupInfo info (pyLower (joinWords ms)) = none) :
    top_speed_action info ms
        = ["No top speed info for model '" ++ joinWords ms ++ "'"]
    ∧ engine_action info ms
        = ["No engine info for model '" ++ joinWords ms ++ "'"]
    ∧ duration_action info ms
        = ["No production duration info for model '" ++ joinWords ms ++ "'"] := by
  unfold top_speed_action engine_action duration_action
  unfold get_top_speed get_engine get_duration
  simp only [h]
  exact ⟨trivial, trivial, trivial⟩

/-- C5 witness: the spec's example, "top speed of ferrari" against an empty
scrape. -/
theorem claim5_witness :
    lookupInfo [] (pyLower (joinWords ["ferrari"])) = none
    ∧ top_speed_action [] ["ferrari"]
        = ["No top speed info for model 'ferrari'"] :=
  ⟨rfl, (claim5_unknown_model_message [] ["ferrari"] rfl).1⟩

/-- C6: the synthetic Aventador table scrapes to the expected record under
key "aventador", and the same record results from any permutation of the
four columns, since columns are located by lowercased header text. -/
theorem claim6_round_trip :
    parse_lambo_tables [aventadorTable]
        = Except.ok
            [("aventador", ⟨"Aventador", "2011-2021", "V12", "350 km/h"⟩)]
    ∧ ∀ cols : List (String × String), cols.Perm aventadorCols →
        parsedLookup [tableOfCols cols] "aventador"
          = some ⟨"Aventador", "2011-2021", "V12", "350 km/h"⟩ := by
  refine ⟨rfl, fun cols h => ?_⟩
  have hall : ∀ c ∈ permsOf aventadorCols,
      parsedLookup [tableOfCols c] "aventador"
        = some ⟨"Aventador", "2011-2021", "V12", "350 km/h"⟩ := by decide
  exact hall cols (perm_mem_permsOf h)

/-- C6 witness: the identity arrangement of the four columns. -/
theorem claim6_witness :
    parsedLookup [tableOfCols aventadorCols] "aventador"
      = some ⟨"Aventador", "2011-2021", "V12", "350 km/h"⟩ :=
  claim6_round_trip.2 aventadorCols (List.Perm.refl _)

/-- C7: a model cell listing two variants separated by a slash registers
both variants as independent lowercased keys carrying identical duration,
engine and top-speed values from that row. -/
theorem claim7_variants :
    ∃ info, parse_lambo_tables [huracanTable] = Except.ok info
      ∧ lookupInfo info "huracán"
          = some ⟨"Huracán", "2014-present", "V10", "325 km/h"⟩
      ∧ lookupInfo info "huracán evo"
          = some ⟨"Huracán EVO", "2014-present", "V10", "325 km/h"⟩ :=
  ⟨_, rfl, rfl, rfl⟩

/-- C8: `get_page_html` raises the lookup failure exactly when the search
returns no results, and on a non-empty search result returns the first
result's fetched markup. -/
theorem claim8_get_page_html (search : String → List String)
    (htmlOf : String → String) (title : String) :
    (get_page_html search htmlOf title
        = Except.error ("No Wikipedia page found for " ++ title)
      ↔ search title = [])
    ∧ ∀ r rest, search title = r :: rest →
        get_page_html search htmlOf title = Except.ok (htmlOf r) := by
  constructor
  · constructor
    · intro h
      cases hs : search title with
      | nil => rfl
      | cons r rest =>
        unfold get_page_html at h
        rw [hs] at h
        cases h
    · intro hs
      unfold get_page_html
      rw [hs]
  · intro r rest hs
    unfold get_page_html
    rw [hs]

/-- C8 witness: a search with no results raises, a search with a result
fetches it. -/
theorem claim8_witness :
    get_page_html (fun _ => []) (fun _ => "") "List of Lamborghini automobiles"
        = Except.error
            ("No Wikipedia page found for " ++ "List of Lamborghini automobiles")
    ∧ get_page_html (fun _ => ["List of Lamborghini automobiles"])
        (fun _ => "markup") "lambo"
        = Except.ok "markup" :=
  ⟨(claim8_get_page_html (fun _ => []) (fun _ => "")
      "List of Lamborghini automobiles").1.mpr rfl,
    (claim8_get_page_html (fun _ => ["List of Lamborghini automobiles"])
      (fun _ => "markup") "lambo").2 "List of Lamborghini automobiles" [] rfl⟩

/-- A cell index below the row length reads successfully. -/
theorem cellText_ok (cols : List Cell) (i : Nat) (h : i < cols.length) :
    ∃ s, cellText cols i = Except.ok s := by
  unfold cellText
  cases hg : cols.get? i with
  | none =>
    rw [List.get?_eq_none] at hg
    omega
  | some c => exact ⟨c.text, rfl⟩

/-- The row loop body never raises: a row shorter than the largest needed
index is skipped, and otherwise every cell access is in bounds. -/
theorem rowStep_ok (mi di ei ti : Nat) (acc : ModelInfo) (cols : List Cell) :
    ∃ r, rowStep mi di ei ti acc cols = Except.ok r := by
  unfold rowStep
  by_cases hlen : cols.length < max (max (max mi di) ei) ti + 1
  · rw [if_pos hlen]
    exact ⟨acc, rfl⟩
  · rw [if_neg hlen]
    obtain ⟨s1, hc1⟩ := cellText_ok cols mi (by omega)
    obtain ⟨s2, hc2⟩ := cellText_ok cols di (by omega)
    obtain ⟨s3, hc3⟩ := cellText_ok cols ei (by omega)
    obtain ⟨s4, hc4⟩ := cellText_ok cols ti (by omega)
    simp only [hc1, hc2, hc3, hc4]
    exact ⟨_, rfl⟩

/-- The table loop body never raises on a table with at least one row. -/
theorem tableStep_ok (acc : ModelInfo) (t : Table) (h : t ≠ []) :
    ∃ r, tableStep acc t = Except.ok r := by
  match t with
  | [] => exact absurd rfl h
  | row0 :: rest =>
    rcases h1 : listIndex "model" (headersOf row0) with _ | mi <;>
      rcases h2 : listIndex "duration of production" (headersOf row0) with _ | di <;>
        rcases h3 : listIndex "engine" (headersOf row0) with _ | ei <;>
          rcases h4 : listIndex "top speed" (headersOf row0) with _ | ti <;>
            simp only [tableStep, h1, h2, h3, h4]
    all_goals first
      | exact ⟨acc, rfl⟩
      | exact foldlM_total _ (fun a x => rowStep_ok _ _ _ _ a x) rest acc

/-- C9, counterexample: the scrape is not total over arbitrary parsed
markup: a `wikitable` with no rows at all makes `rows[0]` raise
`IndexError`, aborting the scrape. -/
theorem claim9_counterexample :
    parse_lambo_tables [[]]
      = Except.error "IndexError: list index out of range" := rfl

/-- C9, amended: the scraper is total over every table list whose tables
each have at least one row: tables lacking the required headers and rows
with too few cells are skipped, no cell access is out of bounds, and the
scrape returns a mapping. -/
theorem claim9_total_on_rowful_tables (tables : List Table)
    (h : ∀ t ∈ tables, t ≠ []) :
    ∃ info, parse_lambo_tables tables = Except.ok info := by
  unfold parse_lambo_tables
  suffices hgen : ∀ (ts : List Table), (∀ t ∈ ts, t ≠ []) → ∀ acc : ModelInfo,
      ∃ res, List.foldlM tableStep acc ts = Except.ok res by
    exact hgen tables h []
  intro ts
  induction ts with
  | nil =>
    intro _ acc
    exact ⟨acc, rfl⟩
  | cons t ts ih =>
    intro hts acc
    obtain ⟨b, hb⟩ := tableStep_ok acc t (hts t (List.mem_cons_self t ts))
    obtain ⟨res, hres⟩ := ih (fun u hu => hts u (List.mem_cons_of_mem t hu)) b
    refine ⟨res, ?_⟩
    rw [List.foldlM_cons, hb]
    simpa only [bind, Except.bind] using hres

/-- C9 witness: the synthetic Aventador table has a header row, so the
scrape of it returns a mapping. -/
theorem claim9_witness :
    (∀ t ∈ [aventadorTable], t ≠ [])
    ∧ ∃ info, parse_lambo_tables [aventadorTable] = Except.ok info :=
  ⟨by decide, claim9_total_on_rowful_tables [aventadorTable] (by decide)⟩

/-- Registering variants of a row keeps every key of the mapping
lowercased. -/
theorem foldl_prepend_low (models : List String) (d e t : String) :
    ∀ acc : ModelInfo, (∀ kv ∈ acc, pyLower kv.1 = kv.1) →
      ∀ kv ∈ models.foldl
          (fun a m => (pyLower m, (⟨m, d, e, t⟩ : ModelRecord)) :: a) acc,
        pyLower kv.1 = kv.1 := by
  induction models with
  | nil =>
    intro acc hacc
    exact hacc
  | cons m ms ih =>
    intro acc hacc
    rw [List.foldl_cons]
    apply ih
    intro kv hkv
    rcases List.mem_cons.mp hkv with rfl | hkv'
    · exact pyLower_idem m
    · exact hacc kv hkv'

/-- The row loop body keeps every key of the mapping lowercased. -/
theorem rowStep_low (mi di ei ti : Nat) (acc : ModelInfo) (cols : List Cell)
    (b : ModelInfo) (hacc : ∀ kv ∈ acc, pyLower kv.1 = kv.1)
    (hstep : rowStep mi di ei ti acc cols = Except.ok b) :
    ∀ kv ∈ b, pyLower kv.1 = kv.1 := by
  unfold rowStep at hstep
  by_cases hlen : cols.length < max (max (max mi di) ei) ti + 1
  · rw [if_pos hlen] at hstep
    cases hstep
    exact hacc
  · rw [if_neg hlen] at hstep
    obtain ⟨s1, hc1⟩ := cellText_ok cols mi (by omega)
    obtain ⟨s2, hc2⟩ := cellText_ok cols di (by omega)
    obtain ⟨s3, hc3⟩ := cellText_ok cols ei (by omega)
    obtain ⟨s4, hc4⟩ := cellText_ok cols ti (by omega)
    simp only [hc1, hc2, hc3, hc4, Except.ok.injEq] at hstep
    subst hstep
    exact foldl_prepend_low _ s2 s3 s4 acc hacc

/-- The table loop body keeps every key of the mapping lowercased. -/
theorem tableStep_low (acc : ModelInfo) (t : Table) (b : ModelInfo)
    (hacc : ∀ kv ∈ acc, pyLower kv.1 = kv.1)
    (hstep : tableStep acc t = Except.ok b) :
    ∀ kv ∈ b, pyLower kv.1 = kv.1 := by
  match t with
  | [] => simp [tableStep] at hstep
  | row0 :: rest =>
    rcases h1 : listIndex "model" (headersOf row0) with _ | mi <;>
      rcases h2 : listIndex "duration of production" (headersOf row0) with _ | di <;>
        rcases h3 : listIndex "engine" (headersOf row0) with _ | ei <;>
          rcases h4 : listIndex "top speed" (headersOf row0) with _ | ti <;>
            simp only [tableStep, h1, h2, h3, h4, Except.ok.injEq] at hstep
    all_goals first
      | · subst hstep
          exact hacc
      | exact foldlM_induct _ (rowStep mi di ei ti)
          (fun a x b' ha hx => rowStep_low mi di ei ti a x b' ha hx)
          rest acc b hacc hstep

/-- C10, counterexample: attribute lookups are not literally invariant
under case variants of the model name: on a missing key the raised
message echoes the caller's spelling, so the two results differ. -/
theorem claim10_counterexample :
    get_duration [] "Ferrari" ≠ get_duration [] "ferrari" := by decide

/-- C10, amended: every key of a scraped mapping is fully lowercased, and
the attribute lookups lowercase their argument before the key test, so two
case-variants of a model name succeed or fail together with the same value
on success; only the model name echoed inside a failure message keeps the
caller's spelling. -/
theorem claim10_case_insensitive :
    (∀ (tables : List Table) (info : ModelInfo),
        parse_lambo_tables tables = Except.ok info →
        ∀ kv ∈ info, pyLower kv.1 = kv.1)
    ∧ (∀ (info : ModelInfo) (m₁ m₂ : String), pyLower m₁ = pyLower m₂ →
        exceptValue (get_duration info m₁) = exceptValue (get_duration info m₂)
        ∧ exceptValue (get_engine info m₁) = exceptValue (get_engine info m₂)
        ∧ exceptValue (get_top_speed info m₁)
            = exceptValue (get_top_speed info m₂)) := by
  constructor
  · intro tables info hparse
    exact foldlM_induct (fun m => ∀ kv ∈ m, pyLower kv.1 = kv.1) tableStep
      (fun a x b ha hx => tableStep_low a x b ha hx) tables [] info
      (fun kv hkv => absurd hkv (List.not_mem_nil kv)) hparse
  · intro info m₁ m₂ h
    unfold get_duration get_engine get_top_speed
    simp only [h]
    cases hx : lookupInfo info (pyLower m₂) <;> exact ⟨rfl, rfl, rfl⟩

/-- C10 witness: a scraped key is lowercase, and the Aventador lookups
agree across a case variant. -/
theorem claim10_witness :
    pyLower "aventador" = "aventador"
    ∧ exceptValue (get_duration [] "Ferrari")
        = exceptValue (get_duration [] "ferrari") :=
  ⟨claim10_case_insensitive.1 [aventadorTable]
      [("aventador", ⟨"Aventador", "2011-2021", "V12", "350 km/h"⟩)] rfl
      ("aventador", ⟨"Aventador", "2011-2021", "V12", "350 km/h"⟩)
      (List.mem_singleton.mpr rfl),
    (claim10_case_insensitive.2 [] "Ferrari" "ferrari" (by decide)).1⟩

end A10
